import Mathlib

/-!
Verification of the SPSC bounded queue in `src/spsc.rs`.

The Rust core is a fixed-capacity ring buffer in one shared allocation,
with two wrapping `usize` cursors (`head` owned by the sender, `tail`
owned by the receiver), a `MaybeUninit` slot array, and two drop flags
used by the two-party teardown protocol.

Embedding conventions:
* Machine integers: `usize` arithmetic wraps at `W = 2^64`.  The state
  keeps the *unwrapped* cursor counts as `Nat` (the spec's "unwrapped
  counters"); every use of a cursor by the code applies `% W`, which is
  exactly what the stored machine word holds, so loads, the
  `wrapping_sub` full test, the `% len` slot index, and the
  `wrapping_add` stores all compute precisely the source's values.
* `MaybeUninit<T>` slots are `Option T` with `none` = uninitialized;
  `MaybeUninit::write` stores `some v`,
  `mem::replace(_, uninit).assume_init()` yields the slot's content and
  leaves `none` (reading an uninitialized slot, undefined behaviour in
  Rust, is modelled as `none`).
* The two handles `Sender`/`Receiver` are raw pointers to one `Shared`
  region; the embedding passes the `Shared` state explicitly, and drop
  handlers become functions on that state.
-/

namespace Spsc

/-- Wrap modulus of `usize` arithmetic: `2^64`. -/
def W : Nat := 18446744073709551616

/-- Control block of the shared region (`struct Meta` in the source):
drop flags and the two cursors.  Cursors are kept unwrapped; the machine
word for a cursor `c` is `c % W`. -/
structure Meta where
  tx_dropped : Bool
  rx_dropped : Bool
  head : Nat
  tail : Nat
deriving DecidableEq

/-- The shared region (`struct Shared<T>`): control block followed by the
inline slot array.  The capacity is `buffer.length`, as in the source,
where `shared.buffer.len()` is the capacity. -/
structure Shared (T : Type) where
  meta : Meta
  buffer : List (Option T)
deriving DecidableEq

variable {T : Type}

/-- `new(cap)` (source lines 102-119): allocates the region with
`head = tail = 0`, both drop flags `false`, and `cap` uninitialized
slots.  Both returned handles alias this one region, so the embedding
returns the region itself. -/
def new (T : Type) (cap : Nat) : Shared T :=
  ⟨⟨false, false, 0, 0⟩, List.replicate cap none⟩

/-- `Sender::try_send` (source lines 32-46).  Loads `head` (relaxed) and
`tail` (acquire); if `head.wrapping_sub(tail) == buffer.len()` the queue
is full and the element is handed back unchanged; otherwise the element
is written to slot `head % len` and `head.wrapping_add(1)` is stored
(release).  Returns `(result, new state)`. -/
def try_send (s : Shared T) (el : T) : Option T × Shared T :=
  let head := s.meta.head
  let tail := s.meta.tail
  if (head % W + W - tail % W) % W = s.buffer.length then
    (some el, s)
  else
    (none,
     ⟨{ s.meta with head := head + 1 },
      s.buffer.set (head % W % s.buffer.length) (some el)⟩)

/-- `Receiver::try_recv` (source lines 66-86).  Loads `tail` (relaxed)
and `head` (acquire); if `tail == head` the queue is empty; otherwise
`tail.wrapping_add(1)` is stored (release) and the value at slot
`tail % len` is moved out (the slot becomes uninitialized).  Returns
`(result, new state)`. -/
def try_recv (s : Shared T) : Option T × Shared T :=
  let tail := s.meta.tail
  let head := s.meta.head
  if tail % W = head % W then
    (none, s)
  else
    (s.buffer.getD (tail % W % s.buffer.length) none,
     ⟨{ s.meta with tail := tail + 1 },
      s.buffer.set (tail % W % s.buffer.length) none⟩)

/-- `impl Drop for Sender` (source lines 49-58): if `rx_dropped` is
observed `true` the region is freed (`true` in the second component),
otherwise only `tx_dropped` is set. -/
def drop_sender (s : Shared T) : Shared T × Bool :=
  if s.meta.rx_dropped then
    (s, true)
  else
    (⟨{ s.meta with tx_dropped := true }, s.buffer⟩, false)

/-- `impl Drop for Receiver` (source lines 91-100), symmetric to
`drop_sender`. -/
def drop_receiver (s : Shared T) : Shared T × Bool :=
  if s.meta.tx_dropped then
    (s, true)
  else
    (⟨{ s.meta with rx_dropped := true }, s.buffer⟩, false)

/-- States reachable from `a` by any sequence of `try_send` / `try_recv`
calls (successful or not). -/
inductive Reachable : Shared T → Shared T → Prop
  | refl (s : Shared T) : Reachable s s
  | send (a b : Shared T) (v : T) (h : Reachable a b) :
      Reachable a (try_send b v).2
  | recv (a b : Shared T) (h : Reachable a b) :
      Reachable a (try_recv b).2

/-- Run `n` consecutive `try_recv` calls, collecting the results. -/
def recvN (s : Shared T) : Nat → List (Option T) × Shared T
  | 0 => ([], s)
  | n + 1 =>
    let p := try_recv s
    let q := recvN p.2 n
    (p.1 :: q.1, q.2)

/-- Run `try_send` on each value in turn; `some` final state iff every
send succeeded. -/
def sendAll : Shared T → List T → Option (Shared T)
  | s, [] => some s
  | s, v :: vs =>
    match try_send s v with
    | (none, s') => sendAll s' vs
    | (some _, _) => none

/-- Atomic actions of `Receiver::try_recv` on shared memory, in the
order the source performs them (values shown are the machine words). -/
inductive RecvEvent where
  | load_tail (v : Nat)
  | load_head (v : Nat)
  | store_tail (v : Nat)
  | read_slot (i : Nat)
deriving DecidableEq

/-- The sequence of shared-memory actions performed by one
`Receiver::try_recv` call (source lines 66-86), in source order: load
`tail` (relaxed, line 68), load `head` (acquire, line 69), and on the
non-empty path store `tail.wrapping_add(1)` (release, lines 74-77) and
only then move the value out of slot `tail % len` (lines 78-84). -/
def try_recv_events (s : Shared T) : List RecvEvent :=
  let tail := s.meta.tail
  let head := s.meta.head
  [RecvEvent.load_tail (tail % W), RecvEvent.load_head (head % W)] ++
  (if tail % W = head % W then []
   else [RecvEvent.store_tail ((tail + 1) % W),
         RecvEvent.read_slot (tail % W % s.buffer.length)])

/-- The two parties of the teardown protocol. -/
inductive Party where
  | tx
  | rx
deriving DecidableEq

/-- State of the two concurrent drop handlers.  Each handler is two
atomic steps: first it loads the peer's flag (recorded in `tx_obs` /
`rx_obs`), then it acts on the observed value — freeing the region if
the peer was observed gone (source lines 52-53 and 94-95), otherwise
setting its own flag (lines 55 and 97).  `frees` counts region frees. -/
structure TearState where
  tx_dropped : Bool
  rx_dropped : Bool
  tx_obs : Option Bool
  rx_obs : Option Bool
  tx_done : Bool
  rx_done : Bool
  frees : Nat
deriving DecidableEq

/-- Initial teardown state: both handles alive, nothing observed. -/
def tearInit : TearState :=
  ⟨false, false, none, none, false, false, 0⟩

/-- One atomic step of the scheduled party's drop handler. -/
def tearStep (s : TearState) : Party → TearState
  | Party.tx =>
    match s.tx_obs with
    | none => { s with tx_obs := some s.rx_dropped }
    | some b =>
      if s.tx_done then s
      else if b then { s with frees := s.frees + 1, tx_done := true }
      else { s with tx_dropped := true, tx_done := true }
  | Party.rx =>
    match s.rx_obs with
    | none => { s with rx_obs := some s.tx_dropped }
    | some b =>
      if s.rx_done then s
      else if b then { s with frees := s.frees + 1, rx_done := true }
      else { s with rx_dropped := true, rx_done := true }

/-- Run the two drop handlers under an arbitrary interleaving (a list of
which party takes the next atomic step). -/
def runTear (sched : List Party) : TearState :=
  sched.foldl tearStep tearInit

/-- Number of element destructors the teardown free path runs for the
values still resident in `s`.  In the source the region is freed by
`drop(Box::from_non_null(self.ptr))` (lines 53 and 95); `Shared<T>`
holds only `Meta` (atomics, no element drops) and `[MaybeUninit<T>]`,
and dropping a `MaybeUninit` never runs the payload's destructor, so no
element destructor is ever executed, whatever is resident. -/
def destructors_on_free (_s : Shared T) : Nat := 0

/- Arithmetic helpers about the `usize` wrap modulus. -/

lemma wrap_sub_eq (t h : Nat) (h1 : t ≤ h) (h2 : h - t < W) :
    (h % W + W - t % W) % W = h - t := by
  simp only [W] at *
  omega

lemma modW_inj (t h : Nat) (h1 : t ≤ h) (h2 : h - t < W) :
    t % W = h % W ↔ t = h := by
  simp only [W] at *
  omega

lemma succ_modW_ne (h : Nat) : h % W ≠ (h + 1) % W := by
  simp only [W]
  omega

lemma modW_self_sub (h : Nat) : (h % W + W - h % W) % W = 0 := by
  simp only [W]
  omega

lemma modW_of_lt {h : Nat} (hh : h < W) : h % W = h := Nat.mod_eq_of_lt hh

/- Slot-array helpers: reading after an in-bounds update. -/

lemma getD_set_self : ∀ (l : List (Option T)) (i : Nat) (a : Option T),
    i < l.length → (l.set i a).getD i none = a := by
  intro l
  induction l with
  | nil => intro i a h; simp at h
  | cons x xs ih =>
    intro i a h
    cases i with
    | zero => simp [List.set]
    | succ n =>
      simp only [List.set, List.getD_cons_succ]
      exact ih n a (by simpa using h)

lemma getD_set_ne : ∀ (l : List (Option T)) (i j : Nat) (a : Option T),
    i ≠ j → (l.set i a).getD j none = l.getD j none := by
  intro l
  induction l with
  | nil => intro i j a _; simp [List.set]
  | cons x xs ih =>
    intro i j a hne
    cases i with
    | zero =>
      cases j with
      | zero => exact absurd rfl hne
      | succ m => simp [List.set]
    | succ n =>
      cases j with
      | zero => simp [List.set]
      | succ m =>
        simp only [List.set, List.getD_cons_succ]
        exact ih n m a (fun h => hne (by omega))

/-- Two in-window counters with the same physical slot coincide: within a
window of at most `len` consecutive counters the slot map `· % len` is
injective. -/
lemma slot_inj {len t k : Nat} (hk : 0 < k) (hklen : k < len) :
    (t + k) % len ≠ t % len := by
  intro h
  have h2 : t + k ≡ t + 0 [MOD len] := by
    simpa [Nat.ModEq] using h
  have h3 : k ≡ 0 [MOD len] := Nat.ModEq.add_left_cancel' t h2
  have hmod : k % len = 0 := by simpa [Nat.ModEq] using h3
  rw [Nat.mod_eq_of_lt hklen] at hmod
  omega

/-- Characterization of a run of successful sends starting from a state
with `tail = 0`: the head advances by the number of values, earlier
slots are untouched, and the sent values sit in consecutive slots. -/
lemma sendAll_go : ∀ (vs : List T) (s s' : Shared T),
    sendAll s vs = some s' →
    s.meta.tail = 0 →
    s.meta.head ≤ s.buffer.length →
    s.buffer.length < W →
    s'.meta.tail = 0 ∧
    s'.meta.head = s.meta.head + vs.length ∧
    s'.meta.head ≤ s'.buffer.length ∧
    s'.buffer.length = s.buffer.length ∧
    (∀ j, j < s.meta.head → s'.buffer.getD j none = s.buffer.getD j none) ∧
    (∀ j, j < vs.length → s'.buffer.getD (s.meta.head + j) none = vs[j]?) := by
  intro vs
  induction vs with
  | nil =>
    intro s s' hrun ht hhead hlen
    simp only [sendAll] at hrun
    cases hrun
    refine ⟨ht, by simp, by simpa using hhead, rfl, fun j _ => rfl, fun j hj => by simp at hj⟩
  | cons v vs' ih =>
    intro s s' hrun ht hhead hlen
    simp only [sendAll, try_send] at hrun
    by_cases hfull :
        (s.meta.head % W + W - s.meta.tail % W) % W = s.buffer.length
    · rw [if_pos hfull] at hrun
      simp at hrun
    · rw [if_neg hfull] at hrun
      -- the send succeeded
      have hheadW : s.meta.head < W := lt_of_le_of_lt hhead hlen
      have hsub : (s.meta.head % W + W - s.meta.tail % W) % W = s.meta.head := by
        rw [ht]
        have := wrap_sub_eq 0 s.meta.head (Nat.zero_le _) (by simpa using hheadW)
        simpa using this
      have hlt : s.meta.head < s.buffer.length := by
        rw [hsub] at hfull
        omega
      have hidx : s.meta.head % W % s.buffer.length = s.meta.head := by
        rw [modW_of_lt hheadW, Nat.mod_eq_of_lt hlt]
      set s1 : Shared T :=
        ⟨{ s.meta with head := s.meta.head + 1 },
         s.buffer.set (s.meta.head % W % s.buffer.length) (some v)⟩ with hs1
      have hlen1 : s1.buffer.length = s.buffer.length := by
        simp [hs1]
      obtain ⟨h1, h2, h3, h4, h5, h6⟩ :=
        ih s1 s' hrun (by simp [hs1, ht]) (by simp [hs1]; omega) (by rw [hlen1]; exact hlen)
      have hh1 : s1.meta.head = s.meta.head + 1 := by simp [hs1]
      refine ⟨h1, ?_, h3, by rw [h4, hlen1], ?_, ?_⟩
      · rw [h2, hh1, List.length_cons]; omega
      · intro j hj
        rw [h5 j (by rw [hh1]; omega)]
        show (s.buffer.set (s.meta.head % W % s.buffer.length) (some v)).getD j none
          = s.buffer.getD j none
        rw [hidx]
        exact getD_set_ne s.buffer _ j (some v) (by omega)
      · intro j hj
        cases j with
        | zero =>
          rw [Nat.add_zero, h5 s.meta.head (by rw [hh1]; omega)]
          show (s.buffer.set (s.meta.head % W % s.buffer.length) (some v)).getD
            s.meta.head none = _
          rw [hidx, getD_set_self s.buffer s.meta.head (some v) hlt]
          simp
        | succ m =>
          have := h6 m (by simpa using hj)
          rw [hh1] at this
          have harith : s.meta.head + (m + 1) = s.meta.head + 1 + m := by omega
          rw [harith, this]
          simp

/-- Draining a queue whose resident window `[tail, head)` holds the
values of `L` in consecutive slots returns exactly `L`, in order, and
leaves the queue empty (`tail = head`). -/
lemma recvN_drain : ∀ (L : List T) (s : Shared T),
    s.meta.head < W →
    s.meta.tail ≤ s.meta.head →
    s.meta.head - s.meta.tail ≤ s.buffer.length →
    L.length = s.meta.head - s.meta.tail →
    (∀ j, j < L.length →
      s.buffer.getD ((s.meta.tail + j) % s.buffer.length) none = L[j]?) →
    (recvN s L.length).1 = L.map some ∧
    (recvN s L.length).2.meta.tail = s.meta.head ∧
    (recvN s L.length).2.meta.head = s.meta.head := by
  intro L
  induction L with
  | nil =>
    intro s hW hth hcap hlen _
    have : s.meta.tail = s.meta.head := by simp at hlen; omega
    simp [recvN, this]
  | cons x L' ih =>
    intro s hW hth hcap hlen hlive
    have htW : s.meta.tail < W := lt_of_le_of_lt hth hW
    have htlt : s.meta.tail < s.meta.head := by
      simp only [List.length_cons] at hlen; omega
    have hne : s.meta.tail % W ≠ s.meta.head % W := by
      rw [modW_of_lt htW, modW_of_lt hW]; omega
    have hlenpos : 0 < s.buffer.length := by omega
    have hidx : s.meta.tail % W % s.buffer.length
        = s.meta.tail % s.buffer.length := by rw [modW_of_lt htW]
    have hx : s.buffer.getD (s.meta.tail % W % s.buffer.length) none = some x := by
      have := hlive 0 (by simp)
      rw [hidx]
      simpa using this
    set s1 : Shared T :=
      ⟨{ s.meta with tail := s.meta.tail + 1 },
       s.buffer.set (s.meta.tail % W % s.buffer.length) none⟩ with hs1
    have hrecv : try_recv s = (some x, s1) := by
      simp only [try_recv]
      rw [if_neg hne, hx]
    have hlen1 : s1.buffer.length = s.buffer.length := by simp [hs1]
    have hlive1 : ∀ j, j < L'.length →
        s1.buffer.getD ((s1.meta.tail + j) % s1.buffer.length) none = L'[j]? := by
      intro j hj
      have hidx1 : (s1.meta.tail + j) % s1.buffer.length
          = (s.meta.tail + (j + 1)) % s.buffer.length := by
        simp only [hs1]
        congr 1
        omega
      have hne2 : (s.meta.tail + (j + 1)) % s.buffer.length
          ≠ s.meta.tail % s.buffer.length := by
        apply slot_inj (by omega)
        simp only [List.length_cons] at hlen
        omega
      show (s.buffer.set (s.meta.tail % W % s.buffer.length) none).getD
        ((s1.meta.tail + j) % s1.buffer.length) none = L'[j]?
      rw [hidx1, hidx, getD_set_ne s.buffer _ _ none (fun h => hne2 h.symm)]
      have := hlive (j + 1) (by simpa using Nat.succ_lt_succ hj)
      rw [this]
      simp
    obtain ⟨g1, g2, g3⟩ := ih s1
      (by simpa [hs1] using hW)
      (by simp [hs1]; omega)
      (by rw [hlen1]; simp [hs1]; omega)
      (by simp only [List.length_cons] at hlen; simp [hs1]; omega)
      hlive1
    have hunfold : recvN s (x :: L').length
        = ((try_recv s).1 :: (recvN (try_recv s).2 L'.length).1,
           (recvN (try_recv s).2 L'.length).2) := by
      simp [recvN]
    rw [hunfold, hrecv]
    refine ⟨?_, by simpa using g2, by simpa using g3⟩
    simp only [List.map_cons]
    exact congrArg (some x :: ·) g1

/-- Every state reachable from `new cap` keeps the capacity and the two
cursor invariants. -/
lemma reach_inv {cap : Nat} (hc : cap < W) :
    ∀ (s : Shared T), Reachable (new T cap) s →
    s.buffer.length = cap ∧ s.meta.tail ≤ s.meta.head ∧
    s.meta.head - s.meta.tail ≤ cap := by
  intro s h
  induction h with
  | refl => simp [new]
  | send b v hr ih =>
    obtain ⟨ih1, ih2, ih3⟩ := ih
    simp only [try_send]
    by_cases hfull :
        (b.meta.head % W + W - b.meta.tail % W) % W = b.buffer.length
    · rw [if_pos hfull]
      exact ⟨ih1, ih2, ih3⟩
    · rw [if_neg hfull]
      have hsub : (b.meta.head % W + W - b.meta.tail % W) % W
          = b.meta.head - b.meta.tail :=
        wrap_sub_eq b.meta.tail b.meta.head ih2 (by omega)
      rw [hsub, ih1] at hfull
      refine ⟨by simpa using ih1, by simp; omega, by simp; omega⟩
  | recv b hr ih =>
    obtain ⟨ih1, ih2, ih3⟩ := ih
    simp only [try_recv]
    by_cases hemp : b.meta.tail % W = b.meta.head % W
    · rw [if_pos hemp]
      exact ⟨ih1, ih2, ih3⟩
    · rw [if_neg hemp]
      have hne : b.meta.tail ≠ b.meta.head := by
        intro h; exact hemp (by rw [h])
      refine ⟨by simpa using ih1, by simp; omega, by simp; omega⟩

/-- From a capacity-0 queue no call changes the state. -/
lemma reach_cap0 : ∀ (s : Shared T), Reachable (new T 0) s → s = new T 0 := by
  intro s h
  induction h with
  | refl => rfl
  | send b v hr ih =>
    rw [ih]
    have hcond : (0 % W + W - 0 % W) % W
        = ((List.replicate 0 (none : Option T)).length) := by
      simp [modW_self_sub 0]
    simp [try_send, new, hcond]
  | recv b hr ih =>
    rw [ih]
    simp [try_recv, new]

/-- Claim C1: FIFO order preservation.  For every capacity, if a
sequence of values is sent from a fresh queue and every `try_send`
succeeds (no interleaved receives), then the following `try_recv` calls
return exactly those values, each wrapped in `some`, in the same
order.  The capacity bound `cap < W` is the `usize` range of
`buffer.len()`. -/
theorem spsc_fifo (T : Type) (cap : Nat) (vs : List T) (s : Shared T)
    (hc : cap < W) (hrun : sendAll (new T cap) vs = some s) :
    (recvN s vs.length).1 = vs.map some := by
  obtain ⟨g1, g2, g3, g4, _, g6⟩ :=
    sendAll_go vs (new T cap) s hrun rfl (by simp [new]) (by simpa [new] using hc)
  have hlen : s.buffer.length = cap := by rw [g4]; simp [new]
  have ghead : s.meta.head = vs.length := by rw [g2]; simp [new]
  have hvc : vs.length ≤ cap := by
    rw [← ghead, ← hlen]; exact g3
  refine (recvN_drain vs s ?_ ?_ ?_ ?_ ?_).1
  · rw [ghead]; omega
  · rw [g1]; exact Nat.zero_le _
  · rw [g1, ghead, hlen]; omega
  · rw [g1, ghead]; omega
  · intro j hj
    have hj2 : j < cap := by omega
    rw [g1]
    simp only [Nat.zero_add]
    rw [Nat.mod_eq_of_lt (by omega : j < s.buffer.length)]
    have := g6 j hj
    simpa [new] using this

/-- Claim C1 witness: on a fresh capacity-2 queue, sending `[10, 20]`
succeeds and the next two receives return `[some 10, some 20]`. -/
theorem spsc_fifo_witness :
    sendAll (new Nat 2) [10, 20]
      = some ((try_send ((try_send (new Nat 2) 10).2) 20).2) ∧
    (recvN ((try_send ((try_send (new Nat 2) 10).2) 20).2) 2).1
      = [some 10, some 20] :=
  ⟨by decide, spsc_fifo Nat 2 [10, 20] _ (by decide) (by decide)⟩

/-- Claim C2: full-queue rejection is value- and state-preserving.  In
any state with the cursor invariant whose resident count `head - tail`
equals the capacity, `try_send v` returns `some v` and the entire state
— head, tail, every slot and both drop flags — is unchanged; and after
exactly `capacity` successful sends on a fresh queue with no receives,
the next `try_send v` returns `some v` with the state unchanged and the
queue still holds `capacity` items. -/
theorem full_send_rejects :
    (∀ (T : Type) (s : Shared T) (v : T),
      s.meta.tail ≤ s.meta.head →
      s.buffer.length < W →
      s.meta.head - s.meta.tail = s.buffer.length →
      try_send s v = (some v, s)) ∧
    (∀ (T : Type) (cap : Nat) (vs : List T) (s : Shared T) (v : T),
      cap < W → vs.length = cap → sendAll (new T cap) vs = some s →
      try_send s v = (some v, s) ∧ s.meta.head - s.meta.tail = cap) := by
  have main : ∀ (T : Type) (s : Shared T) (v : T),
      s.meta.tail ≤ s.meta.head → s.buffer.length < W →
      s.meta.head - s.meta.tail = s.buffer.length → try_send s v = (some v, s) := by
    intro T s v h1 h2 h3
    have hcond : (s.meta.head % W + W - s.meta.tail % W) % W = s.buffer.length := by
      rw [wrap_sub_eq s.meta.tail s.meta.head h1 (by omega)]
      exact h3
    simp [try_send, hcond]
  refine ⟨main, ?_⟩
  intro T cap vs s v hc hlen hrun
  obtain ⟨g1, g2, _, g4, _, _⟩ :=
    sendAll_go vs (new T cap) s hrun rfl (by simp [new]) (by simpa [new] using hc)
  have hblen : s.buffer.length = cap := by rw [g4]; simp [new]
  have hht : s.meta.head - s.meta.tail = cap := by
    rw [g1, g2]; simp [new, hlen]
  exact ⟨main T s v (by omega) (by omega) (by omega), hht⟩

/-- Claim C2 witness: fill a fresh capacity-1 queue with one send; the
next `try_send 9` returns `some 9` and leaves the state untouched. -/
theorem full_send_rejects_witness :
    try_send ((try_send (new Nat 1) 5).2) 9 = (some 9, (try_send (new Nat 1) 5).2) :=
  full_send_rejects.1 Nat _ 9 (by decide) (by decide) (by decide)

/-- Claim C6: cursor invariant.  For every capacity (a `usize`, hence
`< 2^64`) and every state reachable from `new cap` by any sequence of
`try_send` and `try_recv` calls, the unwrapped counters satisfy
`tail ≤ head` and `head - tail ≤ capacity`. -/
theorem cursor_invariant (T : Type) (cap : Nat) (s : Shared T)
    (hc : cap < W) (hr : Reachable (new T cap) s) :
    s.meta.tail ≤ s.meta.head ∧ s.meta.head - s.meta.tail ≤ cap :=
  ⟨(reach_inv hc s hr).2.1, (reach_inv hc s hr).2.2⟩

/-- Claim C6 witness: the invariant at the reachable state reached by
one send on a fresh capacity-2 queue. -/
theorem cursor_invariant_witness :
    (try_send (new Nat 2) 5).2.meta.tail ≤ (try_send (new Nat 2) 5).2.meta.head ∧
    (try_send (new Nat 2) 5).2.meta.head - (try_send (new Nat 2) 5).2.meta.tail ≤ 2 :=
  cursor_invariant Nat 2 _ (by decide)
    (Reachable.send _ _ 5 (Reachable.refl _))

/-- Claim C8: a capacity-zero queue is permanently both full and empty.
In every state reachable from `new 0` by any sequence of calls, every
`try_send v` returns `some v` with the state unchanged, and every
`try_recv` returns `none` with the state unchanged. -/
theorem cap_zero_full_and_empty (T : Type) (s : Shared T) (v : T)
    (hr : Reachable (new T 0) s) :
    try_send s v = (some v, s) ∧ try_recv s = (none, s) := by
  have hs := reach_cap0 s hr
  subst hs
  constructor
  · have hcond : (0 % W + W - 0 % W) % W
        = ((List.replicate 0 (none : Option T)).length) := by
      simp [modW_self_sub 0]
    simp [try_send, new, hcond]
  · simp [try_recv, new]

/-- Claim C8 witness: after one (failed) receive on `new 0`, a send of 7
is rejected unchanged and a receive returns `none`. -/
theorem cap_zero_full_and_empty_witness :
    try_send ((try_recv (new Nat 0)).2) 7 = (some 7, (try_recv (new Nat 0)).2) ∧
    try_recv ((try_recv (new Nat 0)).2) = (none, (try_recv (new Nat 0)).2) :=
  cap_zero_full_and_empty Nat _ 7 (Reachable.recv _ _ (Reachable.refl _))

/-- Claim C7: `try_recv` returns `none` exactly when `tail == head` and
`some value` otherwise, in every state satisfying the data-structure
invariant (cursor bounds, counters in `usize` range, and the spec's
occupancy invariant that every slot in `[tail, head)` holds a live
value); and in particular the first `try_recv` on a newly constructed
queue of any capacity returns `none`. -/
theorem recv_none_iff_empty :
    (∀ (T : Type) (s : Shared T),
      s.meta.tail ≤ s.meta.head →
      s.meta.head < W →
      s.meta.head - s.meta.tail ≤ s.buffer.length →
      (∀ i, s.meta.tail ≤ i → i < s.meta.head →
        (s.buffer.getD (i % s.buffer.length) none).isSome = true) →
      ((try_recv s).1 = none ↔ s.meta.tail = s.meta.head)) ∧
    (∀ (T : Type) (cap : Nat), (try_recv (new T cap)).1 = none) := by
  constructor
  · intro T s h1 h2 h3 hlive
    constructor
    · intro hres
      by_contra hne
      have htlt : s.meta.tail < s.meta.head := lt_of_le_of_ne h1 hne
      have htW : s.meta.tail < W := lt_trans htlt h2
      have hcond : ¬ s.meta.tail % W = s.meta.head % W := by
        rw [modW_of_lt htW, modW_of_lt h2]; omega
      have hval : (try_recv s).1
          = s.buffer.getD (s.meta.tail % W % s.buffer.length) none := by
        simp [try_recv, hcond]
      rw [hval, modW_of_lt htW] at hres
      have := hlive s.meta.tail (le_refl _) htlt
      rw [hres] at this
      simp at this
    · intro heq
      simp [try_recv, heq]
  · intro T cap
    simp [try_recv, new]

/-- Claim C7 witness: the state after one send on a fresh capacity-2
queue satisfies the invariant, and there `try_recv` returning `none` is
equivalent to `tail = head` (both sides false: tail 0, head 1). -/
theorem recv_none_iff_empty_witness :
    ((try_recv ((try_send (new Nat 2) 4).2)).1 = none ↔
      ((try_send (new Nat 2) 4).2).meta.tail = ((try_send (new Nat 2) 4).2).meta.head) ∧
    (try_recv (new Nat 7)).1 = none :=
  ⟨recv_none_iff_empty.1 Nat _ (by decide) (by decide) (by decide)
    (by
      intro i h1 h2
      have hi : i = 0 := by
        have : ((try_send (new Nat 2) 4).2).meta.head = 1 := by decide
        omega
      subst hi
      decide),
   recv_none_iff_empty.2 Nat 7⟩

/-- Claim C9: round-trip.  For every value `v`, from any queue state
that is empty (`head = tail`, which covers any freshly constructed
queue after any balanced traffic) and has nonzero capacity,
`try_send v` followed immediately by `try_recv` yields exactly
`some v`. -/
theorem send_recv_roundtrip (T : Type) (s : Shared T) (v : T)
    (hempty : s.meta.head = s.meta.tail) (hcap : s.buffer.length ≠ 0) :
    (try_recv (try_send s v).2).1 = some v := by
  have hcond1 : ¬ (s.meta.head % W + W - s.meta.tail % W) % W = s.buffer.length := by
    rw [hempty, modW_self_sub]
    omega
  have hs1 : (try_send s v).2 =
      ⟨{ s.meta with head := s.meta.head + 1 },
       s.buffer.set (s.meta.head % W % s.buffer.length) (some v)⟩ := by
    simp [try_send, hcond1]
  rw [hs1]
  have hne : ¬ s.meta.tail % W = (s.meta.head + 1) % W := by
    rw [hempty]
    exact succ_modW_ne s.meta.tail
  have hlen : (s.buffer.set (s.meta.head % W % s.buffer.length) (some v)).length
      = s.buffer.length := List.length_set s.buffer _ _
  have hidx : s.meta.tail % W % s.buffer.length < s.buffer.length :=
    Nat.mod_lt _ (by omega)
  simp only [try_recv, hlen]
  rw [if_neg hne, hempty]
  exact getD_set_self s.buffer _ (some v) hidx

/-- Claim C9 witness: on a fresh capacity-3 queue, `try_send 99` then
`try_recv` yields `some 99`. -/
theorem send_recv_roundtrip_witness :
    (try_recv (try_send (new Nat 3) 99).2).1 = some 99 :=
  send_recv_roundtrip Nat (new Nat 3) 99 (by decide) (by decide)

/-- Claim C10: dropping the Sender while the Receiver is alive does not
disturb the queue.  The drop frees nothing, leaves `head`, `tail` and
every slot unchanged, and the subsequent `try_recv` calls still return
the resident values (`L`, the contents of the window `[tail, head)`) in
FIFO order, after which the queue is empty (`try_recv` returns
`none`). -/
theorem sender_drop_frame (T : Type) (s : Shared T) (L : List T)
    (halive : s.meta.rx_dropped = false)
    (hW : s.meta.head < W)
    (hth : s.meta.tail ≤ s.meta.head)
    (hcap : s.meta.head - s.meta.tail ≤ s.buffer.length)
    (hlen : L.length = s.meta.head - s.meta.tail)
    (hlive : ∀ j, j < L.length →
      s.buffer.getD ((s.meta.tail + j) % s.buffer.length) none = L[j]?) :
    (drop_sender s).2 = false ∧
    (drop_sender s).1.meta.head = s.meta.head ∧
    (drop_sender s).1.meta.tail = s.meta.tail ∧
    (drop_sender s).1.buffer = s.buffer ∧
    (recvN (drop_sender s).1 L.length).1 = L.map some ∧
    (try_recv (recvN (drop_sender s).1 L.length).2).1 = none := by
  have hds : drop_sender s
      = (⟨{ s.meta with tx_dropped := true }, s.buffer⟩, false) := by
    simp [drop_sender, halive]
  rw [hds]
  obtain ⟨d1, d2, d3⟩ :=
    recvN_drain L (⟨{ s.meta with tx_dropped := true }, s.buffer⟩ : Shared T)
      (by simpa using hW) (by simpa using hth) (by simpa using hcap)
      (by simpa using hlen) (by simpa using hlive)
  refine ⟨rfl, rfl, rfl, rfl, d1, ?_⟩
  have hcond : (recvN (⟨{ s.meta with tx_dropped := true }, s.buffer⟩ : Shared T)
      L.length).2.meta.tail % W
      = (recvN (⟨{ s.meta with tx_dropped := true }, s.buffer⟩ : Shared T)
      L.length).2.meta.head % W := by
    rw [d2, d3]
  simp [try_recv, hcond]

/-- Claim C10 witness: capacity-1 queue holding the single value 7; the
Sender drop frees nothing and changes nothing, and the Receiver then
drains `[some 7]` and finds the queue empty. -/
theorem sender_drop_frame_witness :
    (drop_sender ((try_send (new Nat 1) 7).2)).2 = false ∧
    (drop_sender ((try_send (new Nat 1) 7).2)).1.meta.head
      = ((try_send (new Nat 1) 7).2).meta.head ∧
    (drop_sender ((try_send (new Nat 1) 7).2)).1.meta.tail
      = ((try_send (new Nat 1) 7).2).meta.tail ∧
    (drop_sender ((try_send (new Nat 1) 7).2)).1.buffer
      = ((try_send (new Nat 1) 7).2).buffer ∧
    (recvN (drop_sender ((try_send (new Nat 1) 7).2)).1 1).1 = [some 7] ∧
    (try_recv (recvN (drop_sender ((try_send (new Nat 1) 7).2)).1 1).2).1 = none :=
  sender_drop_frame Nat _ [7] (by decide) (by decide) (by decide) (by decide)
    (by decide)
    (by
      intro j hj
      have hj0 : j = 0 := by
        simp at hj
        omega
      subst hj0
      decide)

/-- Claim C3 (refuted by the source; the code is the slip): the claim —
and the spec's step 4 of the receive path — require the value to be
moved out of slot `tail mod capacity` *before* `tail + 1` is published
with the release store.  The source does the opposite: lines 74-77
store `tail.wrapping_add(1)` first and only then (lines 78-84) move the
value out of the slot.  Evaluating the receive path's shared-memory
action sequence on a capacity-1 queue holding one element shows the
`store_tail` action strictly before the `read_slot` action. -/
theorem recv_store_precedes_read :
    try_recv_events ((try_send (new Nat 1) 42).2) =
      [RecvEvent.load_tail 0, RecvEvent.load_head 1,
       RecvEvent.store_tail 1, RecvEvent.read_slot 0] := by
  decide

/-- Claim C4 (refuted by the source; the code is the slip): in the
concurrent interleaving in which both drop handlers load the peer's
flag before either stores its own — Sender loads `rx_dropped` (false),
Receiver loads `tx_dropped` (false), then both take the "mark" branch —
both handlers finish, both flags end up set, and the region is freed
zero times, not exactly once as the claim (and the spec's teardown-safety
test) requires. -/
theorem concurrent_drop_leaks :
    (runTear [Party.tx, Party.rx, Party.tx, Party.rx]).tx_done = true ∧
    (runTear [Party.tx, Party.rx, Party.tx, Party.rx]).rx_done = true ∧
    (runTear [Party.tx, Party.rx, Party.tx, Party.rx]).tx_dropped = true ∧
    (runTear [Party.tx, Party.rx, Party.tx, Party.rx]).rx_dropped = true ∧
    (runTear [Party.tx, Party.rx, Party.tx, Party.rx]).frees = 0 := by
  decide

/-- Claim C5 (refuted by the source; the spec itself flags the code's
behaviour as a defect): after one send on a fresh capacity-1 queue one
element is resident (`head - tail = 1`), yet the teardown free path
runs zero element destructors — `drop(Box::from_non_null(..))` drops
only `Meta` and the `MaybeUninit` slots, never the resident payloads —
instead of the exactly-once destruction the claim requires. -/
theorem free_runs_no_destructors :
    ((try_send (new Nat 1) 42).2).meta.head
      - ((try_send (new Nat 1) 42).2).meta.tail = 1 ∧
    destructors_on_free ((try_send (new Nat 1) 42).2) = 0 := by
  decide

end Spsc
